import Mathlib

/-!
Shallow embedding of the TryCP client and conductor layer of the tryorama
repository (src/ts/src/trycp/trycp-client.ts and the conductor/common
modules), together with theorems settling the frozen claims about the
request/response multiplexer, the signal-handler table, the module-level
request-id counter, and the conductor operations built on top.

Payloads, agent keys and handlers are abstracted to natural numbers; the
observable structure of the code (which map entries exist, which promise
settles with which outcome, which commands are sent) is modelled exactly.
-/

namespace TryCp

/-- The payload found under key "0" of a response envelope, as inspected by
TryCpClient.processSuccessResponse: either the literal TRYCP_SUCCESS_RESPONSE
or a plain string (returned as is), or a msgpack-encoded api response that
deserializes to a success or to a response of type "error" (which makes
processSuccessResponse throw, so the promise is rejected). -/
inductive SuccessPayload where
  | trycpOk : SuccessPayload
  | apiOk (v : Nat) : SuccessPayload
  | apiError (e : Nat) : SuccessPayload
deriving DecidableEq, Repr

/-- The body of a response envelope: the server sends an object holding key
"0" (formally correct request), key "1" (incorrect format), or neither
(the "unknown response type" branch of the message handler). -/
inductive ResponseBody where
  | ok (p : SuccessPayload) : ResponseBody
  | err (e : Nat) : ResponseBody
  | unknownShape : ResponseBody
deriving DecidableEq, Repr

/-- An incoming frame as classified by deserializeTryCpResponse in the
message handler of TryCpClient.create: a response bearing a request id, or
a signal bearing an interface port. -/
inductive Frame where
  | response (id : Nat) (body : ResponseBody) : Frame
  | signal (port : Nat) (payload : Nat) : Frame
deriving DecidableEq, Repr

/-- How a pending promise is settled by the message handler. -/
inductive Outcome where
  | resolvedTrycp : Outcome
  | resolvedApi (v : Nat) : Outcome
  | rejectedApiError (e : Nat) : Outcome
  | rejectedErr (e : Nat) : Outcome
deriving DecidableEq, Repr

/-- TryCpClient.processSuccessResponse followed by the resolve or reject in
the "0" branch of the message handler: a payload that deserializes to an
api error response makes processSuccessResponse throw, and the catch
rejects the promise with that error. -/
def processSuccessResponse : SuccessPayload → Outcome
  | .trycpOk => .resolvedTrycp
  | .apiOk v => .resolvedApi v
  | .apiError e => .rejectedApiError e

/-- The settlement produced by a response body, if any: the "0" branch
settles via processSuccessResponse, the "1" branch rejects with the error
value, and a body with neither key throws before the map entry is deleted,
so nothing is settled. -/
def settleBody : ResponseBody → Option Outcome
  | .ok p => some (processSuccessResponse p)
  | .err e => some (.rejectedErr e)
  | .unknownShape => none

/-- A response body with key "0" or key "1", the shapes the server sends
for a request it processed. -/
def ResponseBody.wellFormed : ResponseBody → Bool
  | .unknownShape => false
  | _ => true

/-- State of one TryCpClient connection. requestPromises lists the request
ids that currently hold a pending resolve/reject continuation, in
registration order. settled records, in order of occurrence, every
settlement a caller observed. signalHandlers is the port-indexed handler
table (an entry holding none models setSignalHandler(port, undefined)).
signalLog records every delivered signal as (handler, port, payload).
wsClosed models the web socket having been closed. -/
structure Client where
  requestPromises : List Nat
  settled : List (Nat × Outcome)
  signalHandlers : List (Nat × Option Nat)
  signalLog : List (Nat × Nat × Nat)
  wsClosed : Bool
deriving DecidableEq, Repr

/-- A freshly created client: empty pending map, empty handler table. -/
def Client.init : Client := ⟨[], [], [], [], false⟩

/-- TryCpClient.setSignalHandler: this.signalHandlers[port] = signalHandler.
Object assignment keeps one entry per key, so any previous entry for the
port is replaced. -/
def Client.setSignalHandler (c : Client) (port : Nat) (h : Option Nat) : Client :=
  { c with signalHandlers :=
      (port, h) :: c.signalHandlers.filter (fun e => e.1 ≠ port) }

/-- The message handler installed by TryCpClient.create. A signal frame is
forwarded to the registered handler for its port, or logged and dropped if
the entry is missing or undefined. A response frame whose id has a pending
entry is settled according to its body and the entry deleted; if the body
has neither key "0" nor "1" the handler throws before the delete, which the
outer catch swallows. A response frame whose id has no pending entry makes
the destructuring of undefined throw, also swallowed by the outer catch, so
the state is unchanged. -/
def Client.handleMessage (c : Client) : Frame → Client
  | .signal port payload =>
    match c.signalHandlers.lookup port with
    | some (some h) => { c with signalLog := c.signalLog ++ [(h, port, payload)] }
    | _ => c
  | .response id body =>
    if id ∈ c.requestPromises then
      match settleBody body with
      | some oc =>
        { c with requestPromises := c.requestPromises.erase id,
                 settled := c.settled ++ [(id, oc)] }
      | none => c
    else c

/-- Processing of a sequence of incoming frames in arrival order. -/
def Client.processAll (c : Client) (fs : List Frame) : Client :=
  fs.foldl Client.handleMessage c

/-- TryCpClient.call, parameterized by the module-level requestId counter:
registers a pending continuation under the current counter value, sends the
request, increments the counter, and returns the id used. -/
def Client.call (rid : Nat) (c : Client) : Nat × Client × Nat :=
  (rid + 1, { c with requestPromises := c.requestPromises ++ [rid] }, rid)

/-- TryCpClient.close: waits for the close event of the web socket and
closes it with code 1000. The pending-request map, the settled log and the
handler table are not touched. -/
def Client.close (c : Client) : Client :=
  { c with wsClosed := true }

/-- State of the trycp-client module: the shared module-level requestId
counter together with every client created so far. -/
structure Module where
  requestId : Nat
  clients : List Client
deriving DecidableEq, Repr

/-- The module as loaded: let requestId = 0, no clients yet. -/
def Module.init : Module := ⟨0, []⟩

/-- TryCpClient.create, seen from the module: appends a fresh client and
returns its index. The module counter is untouched. -/
def Module.newClient (m : Module) : Module × Nat :=
  ({ m with clients := m.clients ++ [Client.init] }, m.clients.length)

/-- A call on the client at index ci: the id used is the current value of
the shared module counter, which is then incremented. -/
def Module.call (m : Module) (ci : Nat) : Module × Nat :=
  match m.clients[ci]? with
  | some c =>
    ({ requestId := m.requestId + 1,
       clients := m.clients.set ci (Client.call m.requestId c).2.1 }, m.requestId)
  | none => ({ m with requestId := m.requestId + 1 }, m.requestId)

/-- An operation on the trycp-client module, for tracing id assignment. -/
inductive ModOp where
  | newClient : ModOp
  | call (ci : Nat) : ModOp
deriving DecidableEq, Repr

/-- Run a sequence of module operations, collecting the request ids
assigned by the calls, in order. -/
def Module.run (m : Module) : List ModOp → Module × List Nat
  | [] => (m, [])
  | .newClient :: ops => Module.run (m.newClient).1 ops
  | .call ci :: ops =>
    let (m', id) := m.call ci
    let (m'', ids) := Module.run m' ops
    (m'', id :: ids)

/-- Number of call operations in a sequence. -/
def countCalls : List ModOp → Nat
  | [] => 0
  | .newClient :: ops => countCalls ops
  | .call _ :: ops => 1 + countCalls ops

/-- A cell id: the pair of DNA hash and agent pub key, abstracted. -/
abbrev CellId := Nat × Nat

/-- A full zome call request as sent to appWs().callZome: cell id,
provenance, cap secret, payload and the zome and function names. -/
structure CallZomeRequest where
  cellId : CellId
  provenance : Nat
  capSecret : Option Nat
  payload : Option Nat
  zomeName : Nat
  fnName : Nat
deriving DecidableEq, Repr

/-- The argument of appWs().callZome: CallZomeRequest or
CallZomeRequestSigned, distinguished by the presence of a signature. -/
inductive ZomeCallArg where
  | unsigned (r : CallZomeRequest) : ZomeCallArg
  | presigned (r : CallZomeRequest) (signature : Nat) : ZomeCallArg
deriving DecidableEq, Repr

/-- The zome request options of a callable cell (CellZomeCallRequest):
without cell id, with optional provenance and payload. -/
structure CellZomeCallRequest where
  zomeName : Nat
  fnName : Nat
  provenance : Option Nat
  payload : Option Nat
deriving DecidableEq, Repr

/-- Errors thrown locally by the conductor layer, identified by the throw
site and its data. noSigningCredentials models the message "cannot sign
zome call: no signing credentials have been authorized for cell ..." of
appWs().callZome. -/
inductive ConductorError where
  | noSigningCredentials (cellId : CellId) : ConductorError
  | noAppInterfaceAttached : ConductorError
  | enableAppFailed (errors : List Nat) : ConductorError
  | stemCellsNotImplemented : ConductorError
deriving DecidableEq, Repr

/-- A command put on the wire through tryCpClient.call by the conductor
methods that the claims concern. -/
inductive Command where
  | generateAgentPubKey : Command
  | installApp (appId : Nat) (agentKey : Nat) : Command
  | enableApp (appId : Nat) : Command
  | attachAppInterface (port : Nat) : Command
  | callZome (port : Nat) (request : CallZomeRequest) (signature : Nat) : Command
deriving DecidableEq, Repr

/-- The signing credentials store of the external holochain client module,
keyed by cell id; the credential content is abstracted. -/
abbrev CredsStore := List (CellId × Nat)

/-- The external signZomeCall of the holochain client: produces a signed
request on authorized credentials; the signature content is outside this
core, so it is abstracted to a constant. -/
def signZomeCall (_r : CallZomeRequest) : Nat := 0

/-- appWs().callZome of TryCpConductor, composed with callAppApi. A request
without a signature is first checked against the credentials store: without
authorized credentials for its cell id it throws locally, before anything
reaches callAppApi or the client, so no command is sent and the client
state is unchanged. Otherwise callAppApi asserts the attached app interface
port and dispatches a call_app_interface command through tryCpClient.call,
registering a pending continuation; the returned Except marks whether the
dispatch happened, with the promise settlement itself pending. Note the
implementation takes no timeout parameter. -/
def callZomeAppWs (creds : CredsStore) (appInterfacePort : Option Nat)
    (arg : ZomeCallArg) (rid : Nat) (c : Client) :
    Except ConductorError Unit × Nat × Client × List Command :=
  let dispatch := fun (r : CallZomeRequest) (signature : Nat) =>
    match appInterfacePort with
    | none => (Except.error ConductorError.noAppInterfaceAttached, rid, c, [])
    | some port =>
      let (rid', c', _id) := Client.call rid c
      (Except.ok (), rid', c', [Command.callZome port r signature])
  match arg with
  | .presigned r signature => dispatch r signature
  | .unsigned r =>
    match creds.lookup r.cellId with
    | none => (Except.error (ConductorError.noSigningCredentials r.cellId), rid, c, [])
    | some _ => dispatch r (signZomeCall r)

/-- The callable cell produced by getCallableCell: the spread cell record
together with the data its callZome closure captures — the conductor, the
cell id and the agent pub key. -/
structure CallableCell where
  cellId : CellId
  conductor : Nat
  agentPubKey : Nat
deriving DecidableEq, Repr

/-- getCallableCell of common.ts. -/
def getCallableCell (conductor : Nat) (cellId : CellId) (agentPubKey : Nat) :
    CallableCell :=
  ⟨cellId, conductor, agentPubKey⟩

/-- The request assembled by the callZome closure of getCallableCell:
cap_secret null, the cell id of the captured cell, provenance defaulting to
the captured agent pub key, payload defaulting to null. -/
def buildCellZomeCall (cc : CallableCell) (r : CellZomeCallRequest) :
    CallZomeRequest :=
  { cellId := cc.cellId
    provenance := r.provenance.getD cc.agentPubKey
    capSecret := none
    payload := r.payload
    zomeName := r.zomeName
    fnName := r.fnName }

/-- The callZome closure of getCallableCell: builds the request and invokes
appWs().callZome of the conductor with the request and the timeout — but
the implementation of appWs().callZome declares only the request parameter,
so the timeout argument is dropped at the call boundary. -/
def CallableCell.callZome (cc : CallableCell) (creds : CredsStore)
    (appInterfacePort : Option Nat) (r : CellZomeCallRequest)
    (timeout : Option Nat) (rid : Nat) (c : Client) :
    Except ConductorError Unit × Nat × Client × List Command :=
  callZomeAppWs creds appInterfacePort
    (ZomeCallArg.unsigned (buildCellZomeCall cc r)) rid c

/-- A cell info entry of an AppInfo: provisioned, cloned (the clone id is
none when absent or empty, which is falsy in the code), or stem. -/
inductive CellInfo where
  | provisioned (cellId : CellId) : CellInfo
  | cloned (cellId : CellId) (cloneId : Option Nat) : CellInfo
  | stem : CellInfo
deriving DecidableEq, Repr

/-- A cell info entry the enableAndGetAgentApp loop accepts: provisioned,
or cloned with a truthy clone id; every other entry makes it throw. -/
def CellInfo.usable : CellInfo → Bool
  | .provisioned _ => true
  | .cloned _ (some _) => true
  | _ => false

/-- The app info returned by the install_app admin command: the installed
app id and the cell infos per role name, in key order. -/
structure AppInfo where
  installedAppId : Nat
  cellInfo : List (Nat × List CellInfo)
deriving DecidableEq, Repr

/-- The response of the enable_app admin command. -/
structure EnableAppResponse where
  errors : List Nat
deriving DecidableEq, Repr

/-- The AgentApp assembled by enableAndGetAgentApp. -/
structure AgentApp where
  appId : Nat
  agentPubKey : Nat
  cells : List CallableCell
  namedCells : List (Nat × CallableCell)
deriving DecidableEq, Repr

/-- Map.set semantics of the namedCells map: replace the entry of an
existing key in place, otherwise append. -/
def mapSet (m : List (Nat × CallableCell)) (k : Nat) (v : CallableCell) :
    List (Nat × CallableCell) :=
  if m.any (fun e => e.1 = k) then
    m.map (fun e => if e.1 = k then (k, v) else e)
  else m ++ [(k, v)]

/-- The cell infos of an app info flattened in iteration order, each paired
with its role name, matching the nested forEach of enableAndGetAgentApp. -/
def roleCells (info : AppInfo) : List (Nat × CellInfo) :=
  info.cellInfo.flatMap (fun rc => rc.2.map (fun ci => (rc.1, ci)))

/-- One iteration of the cell loop of enableAndGetAgentApp: a provisioned
cell yields a callable cell pushed to cells and set under its role name; a
cloned cell with truthy clone id yields one set under its clone id; any
other entry throws "Stem cells are not implemented". -/
def addCell (conductor agentPubKey : Nat) (role : Nat) (ci : CellInfo)
    (acc : List CallableCell × List (Nat × CallableCell)) :
    Except ConductorError (List CallableCell × List (Nat × CallableCell)) :=
  match ci with
  | .provisioned cid =>
    let cc := getCallableCell conductor cid agentPubKey
    .ok (acc.1 ++ [cc], mapSet acc.2 role cc)
  | .cloned cid (some cloneId) =>
    let cc := getCallableCell conductor cid agentPubKey
    .ok (acc.1 ++ [cc], mapSet acc.2 cloneId cc)
  | .cloned _ none => .error .stemCellsNotImplemented
  | .stem => .error .stemCellsNotImplemented

/-- The cell loop of enableAndGetAgentApp over the flattened cell infos; a
throw aborts the iteration. -/
def collectCells (conductor agentPubKey : Nat) :
    List (Nat × CellInfo) → (List CallableCell × List (Nat × CallableCell)) →
    Except ConductorError (List CallableCell × List (Nat × CallableCell))
  | [], acc => .ok acc
  | (role, ci) :: rest, acc =>
    match addCell conductor agentPubKey role ci acc with
    | .ok acc' => collectCells conductor agentPubKey rest acc'
    | .error e => .error e

/-- enableAndGetAgentApp of common.ts: issues the enable_app command for
the installed app id, throws if the enable response reports errors, and
otherwise resolves every declared cell into a callable cell. The first
component is the trace of commands issued. -/
def enableAndGetAgentApp (conductor agentPubKey : Nat) (info : AppInfo)
    (enableResp : EnableAppResponse) :
    List Command × Except ConductorError AgentApp :=
  let trace := [Command.enableApp info.installedAppId]
  if enableResp.errors ≠ [] then
    (trace, .error (.enableAppFailed enableResp.errors))
  else
    match collectCells conductor agentPubKey (roleCells info) ([], []) with
    | .error e => (trace, .error e)
    | .ok acc => (trace, .ok ⟨info.installedAppId, agentPubKey, acc.1, acc.2⟩)

/-- TryCpConductor.installApp: takes the agent key from the options or
generates one, issues the install_app command (whose successful response is
the given app info), and hands over to enableAndGetAgentApp — the enable
command always follows a successful install. The first component is the
trace of commands issued. -/
def TryCpConductor.installApp (conductor : Nat) (optAgentKey : Option Nat)
    (generatedKey : Nat) (requestedAppId : Nat) (info : AppInfo)
    (enableResp : EnableAppResponse) :
    List Command × Except ConductorError AgentApp :=
  let agentKey := optAgentKey.getD generatedKey
  let keyTrace := match optAgentKey with
    | some _ => []
    | none => [Command.generateAgentPubKey]
  let (tr, res) := enableAndGetAgentApp conductor agentKey info enableResp
  (keyTrace ++ [Command.installApp requestedAppId agentKey] ++ tr, res)

/-- The conductor handle state the attach claims concern: its id and the
optional attached app interface port. -/
structure Conductor where
  id : Nat
  appInterfacePort : Option Nat
deriving DecidableEq, Repr

/-- adminWs().attachAppInterface of TryCpConductor: defaults the request to
a fresh port from getPort when none is given, issues the attach command,
asserts the success response, stores request.port in this.appInterfacePort
and returns the port of the response. No check of an existing attachment is
made. -/
def Conductor.attachAppInterface (cond : Conductor) (requestPort : Option Nat)
    (freshPort : Nat) (responsePort : Nat) :
    Conductor × List Command × Nat :=
  let port := requestPort.getD freshPort
  ({ cond with appInterfacePort := some port },
   [Command.attachAppInterface port], responsePort)

/-- An admin-plane event of the orchestration layer: a fetch of the agent
info records known to the conductor at a source index, or a push of records
into the conductor at a destination index. -/
inductive AdminEvent where
  | fetch (src : Nat) : AdminEvent
  | push (src dst : Nat) (records : List Nat) : AdminEvent
deriving DecidableEq, Repr

/-- addAllAgentsToAllConductors of common.ts over conductors given by their
agent info record lists: for each source index one agentInfo fetch, then a
push of the fetched records to every index other than the source. The
returned list is the canonical linearization of the concurrent all-pairs
broadcast; the multiset of events is the same for every interleaving. -/
def addAllAgentsToAllConductors (cs : List (List Nat)) : List AdminEvent :=
  (List.range cs.length).flatMap (fun i =>
    AdminEvent.fetch i ::
      (List.range cs.length).filterMap (fun j =>
        if i ≠ j then some (AdminEvent.push i j (cs.getD i [])) else none))

/-- The effect of the admin events on the conductors: a push appends the
records to the destination conductor. -/
def applyEvents (cs : List (List Nat)) : List AdminEvent → List (List Nat)
  | [] => cs
  | .fetch _ :: evts => applyEvents cs evts
  | .push _ dst recs :: evts =>
    applyEvents (cs.set dst (cs.getD dst [] ++ recs)) evts

/-- n calls issued on one fresh connection with a fresh module counter:
returns the counter after the calls and the client. -/
def callN : Nat → Nat × Client
  | 0 => (0, Client.init)
  | n + 1 =>
    let (rid, c) := callN n
    let (rid', c', _id) := Client.call rid c
    (rid', c')

/-- The settlement event a frame produces on a client whose pending map
holds the id of the frame: the settled request id and its outcome. -/
def frameSettlement : Frame → Option (Nat × Outcome)
  | .response i b => (settleBody b).map (fun oc => (i, oc))
  | .signal _ _ => none

/-- The cell id of a cell info entry. -/
def CellInfo.cellIdOf : CellInfo → CellId
  | .provisioned cid => cid
  | .cloned cid _ => cid
  | .stem => (0, 0)

end TryCp

open TryCp

/-- C3: a response frame whose id has no entry in the pending-request map
is dropped without fatal effect: the destructuring throw is swallowed by
the outer catch, so the client state is unchanged — no pending request is
settled or removed, nothing propagates to a caller — and processing of the
subsequent frames proceeds exactly as if the frame had not arrived. -/
theorem unknown_id_response_dropped (c : Client) (i : Nat)
    (b : ResponseBody) (rest : List Frame)
    (h : i ∉ c.requestPromises) :
    c.handleMessage (Frame.response i b) = c ∧
    c.processAll (Frame.response i b :: rest) = c.processAll rest := by
  have h1 : c.handleMessage (Frame.response i b) = c := by
    simp [Client.handleMessage, h]
  exact ⟨h1, by simp [Client.processAll, h1]⟩

/-- Witness for the unknown-id claim at a concrete client: one call with
id 0 pending, a response for the unknown id 5 arrives, then one for id 0. -/
theorem unknown_id_response_dropped_witness :
    (5 ∉ (Client.init.call 0).2.1.requestPromises) ∧
    (Client.init.call 0).2.1.handleMessage (Frame.response 5 (ResponseBody.err 3)) =
      (Client.init.call 0).2.1 ∧
    (Client.init.call 0).2.1.processAll
        [Frame.response 5 (ResponseBody.err 3), Frame.response 0 (ResponseBody.err 4)] =
      (Client.init.call 0).2.1.processAll [Frame.response 0 (ResponseBody.err 4)] := by
  refine ⟨by decide, ?_⟩
  exact unknown_id_response_dropped (Client.init.call 0).2.1 5 (ResponseBody.err 3)
    [Frame.response 0 (ResponseBody.err 4)] (by decide)

/-- C2 counterexample: with one call pending, closing the connection
settles nothing — the settled log stays empty (so zero promises are
rejected, with ConnectionClosed or anything else) and the pending map
still holds the registered id, contradicting the claim that exactly K = 1
pending promises are rejected at close time. -/
theorem close_rejects_no_pending_cex :
    (Client.init.call 0).2.1.requestPromises.length = 1 ∧
    (Client.init.call 0).2.1.close.settled = [] ∧
    (Client.init.call 0).2.1.close.requestPromises = [0] := by decide

/-- C2 amended: TryCpClient.close only closes the web socket (with code
1000, resolving once the close event fires); it does not touch the
pending-request map and settles no pending promise — K pending calls are
still pending, unsettled, after close. -/
theorem close_leaves_pending_unsettled (c : Client) :
    c.close.requestPromises = c.requestPromises ∧
    c.close.settled = c.settled ∧
    c.close.wsClosed = true :=
  ⟨rfl, rfl, rfl⟩

/-- C8 counterexample: on a conductor with port 30001 already attached,
attachAppInterface with port 30002 does not fail with any
InterfaceAlreadyAttached error — it issues the attach command and
replaces the tracked port. -/
theorem attach_app_interface_no_already_attached_cex :
    (Conductor.attachAppInterface ⟨0, some 30001⟩ (some 30002) 0 30002).1.appInterfacePort
      = some 30002 ∧
    (Conductor.attachAppInterface ⟨0, some 30001⟩ (some 30002) 0 30002).2.1
      = [Command.attachAppInterface 30002] := by decide

/-- C8 amended: the handle tracks at most one attached port (a single
optional field), but attachAppInterface never checks for an existing
attachment: it always issues the attach command for the requested (or
freshly allocated) port and overwrites the tracked port — last attach
wins, and no InterfaceAlreadyAttached error exists in the code. -/
theorem attach_app_interface_overwrites (cond : Conductor) (rp : Option Nat)
    (fp resp : Nat) :
    (cond.attachAppInterface rp fp resp).1.appInterfacePort = some (rp.getD fp) ∧
    (cond.attachAppInterface rp fp resp).2.1
      = [Command.attachAppInterface (rp.getD fp)] ∧
    (cond.attachAppInterface rp fp resp).1.id = cond.id ∧
    (cond.attachAppInterface rp fp resp).2.2 = resp :=
  ⟨rfl, rfl, rfl, rfl⟩

/-- C10: appWs().callZome invoked with an unsigned request whose cell id
has no authorized signing credentials throws locally; the request-id
counter, the client state (in particular the pending-request map) are
unchanged and no command is sent to the server. -/
theorem callzome_unsigned_no_creds_local_error (creds : CredsStore)
    (port : Option Nat) (r : CallZomeRequest) (rid : Nat) (c : Client)
    (hnone : creds.lookup r.cellId = none) :
    callZomeAppWs creds port (ZomeCallArg.unsigned r) rid c =
      (Except.error (ConductorError.noSigningCredentials r.cellId), rid, c, []) := by
  simp [callZomeAppWs, hnone]

/-- Witness for the no-credentials claim: an empty credentials store and a
concrete request. -/
theorem callzome_unsigned_no_creds_local_error_witness :
    ([] : CredsStore).lookup ((1, 2) : CellId) = none ∧
    callZomeAppWs [] (some 30000)
        (ZomeCallArg.unsigned ⟨(1, 2), 7, none, none, 3, 4⟩) 0 Client.init =
      (Except.error (ConductorError.noSigningCredentials (1, 2)), 0, Client.init, []) := by
  refine ⟨by decide, ?_⟩
  exact callzome_unsigned_no_creds_local_error [] (some 30000)
    ⟨(1, 2), 7, none, none, 3, 4⟩ 0 Client.init (by decide)

/-- Registering a handler makes it the one looked up for its port. -/
theorem setSignalHandler_lookup (c : Client) (p : Nat) (h : Option Nat) :
    (c.setSignalHandler p h).signalHandlers.lookup p = some h := by
  simp [Client.setSignalHandler, List.lookup]

/-- After registering a handler the table holds exactly one entry for the
port. -/
theorem setSignalHandler_unique (c : Client) (p : Nat) (h : Option Nat) :
    ((c.setSignalHandler p h).signalHandlers.filter
      (fun e => e.1 = p)).length = 1 := by
  simp only [Client.setSignalHandler, List.filter_cons]
  have hnil : (c.signalHandlers.filter (fun e => decide (e.1 ≠ p))).filter
      (fun e => decide (e.1 = p)) = [] := by
    rw [List.filter_filter]
    apply List.filter_eq_nil_iff.mpr
    intro e _
    by_cases hep : e.1 = p <;> simp [hep]
  simp [hnil]

/-- C5: for every interface port at most one signal handler is registered
at a time — registering a second handler for the same port silently
replaces the first (the table keeps one entry per port and lookup yields
the last registered handler) — an incoming signal frame for the port is
delivered to exactly the most recently registered handler (one delivery
appended to the log, every other state component unchanged, in particular
no pending request touched), and a signal frame for a port with no
registered handler (no entry, or an entry cleared to undefined) leaves the
client completely unchanged: nothing raised, nothing queued, no other port
and no pending request affected. -/
theorem signal_handler_last_write_wins (c c' c₂ : Client) (p d h₁ h₂ : Nat)
    (hc₂ : c₂ = (c.setSignalHandler p (some h₁)).setSignalHandler p (some h₂))
    (hnone : c'.signalHandlers.lookup p = none ∨
             c'.signalHandlers.lookup p = some none) :
    (c₂.signalHandlers.filter (fun e => e.1 = p)).length = 1 ∧
    c₂.signalHandlers.lookup p = some (some h₂) ∧
    c₂.handleMessage (Frame.signal p d) =
      { c₂ with signalLog := c₂.signalLog ++ [(h₂, p, d)] } ∧
    c'.handleMessage (Frame.signal p d) = c' := by
  subst hc₂
  refine ⟨setSignalHandler_unique _ p (some h₂), setSignalHandler_lookup _ p (some h₂), ?_, ?_⟩
  · simp [Client.handleMessage, setSignalHandler_lookup]
  · rcases hnone with hn | hn <;> simp [Client.handleMessage, hn]

/-- Witness for the signal-handler claim: handler 6 replaces handler 5 on
port 1 of a fresh client and receives the signal; a fresh client with no
handler drops a signal unchanged. -/
theorem signal_handler_last_write_wins_witness :
    ((⟨[], [], [(1, some 6)], [], false⟩ : Client).signalHandlers.filter
      (fun e => e.1 = 1)).length = 1 ∧
    (⟨[], [], [(1, some 6)], [], false⟩ : Client).signalHandlers.lookup 1
      = some (some 6) ∧
    (⟨[], [], [(1, some 6)], [], false⟩ : Client).handleMessage (Frame.signal 1 42) =
      ⟨[], [], [(1, some 6)], [(6, 1, 42)], false⟩ ∧
    Client.init.handleMessage (Frame.signal 1 42) = Client.init := by
  have h := signal_handler_last_write_wins Client.init Client.init
    ⟨[], [], [(1, some 6)], [], false⟩ 1 42 5 6 (by decide) (Or.inl (by decide))
  exact h

/-- A dispatched zome call of a callable cell: case analysis of the
credentials lookup and the attached port. -/
theorem callzome_dispatch_shape (cc : CallableCell) (creds : CredsStore)
    (port : Option Nat) (r : CellZomeCallRequest) (t : Option Nat)
    (rid rid' : Nat) (c c' : Client) (cmds : List Command)
    (hdisp : cc.callZome creds port r t rid c = (Except.ok (), rid', c', cmds)) :
    rid' = rid + 1 ∧ c'.requestPromises = c.requestPromises ++ [rid] ∧
    c'.settled = c.settled := by
  rw [CallableCell.callZome, callZomeAppWs] at hdisp
  rcases hl : creds.lookup (buildCellZomeCall cc r).cellId with _ | v <;>
    rw [hl] at hdisp
  · simp at hdisp
  · rcases port with _ | pt
    · simp at hdisp
    · simp [Client.call] at hdisp
      obtain ⟨h1, h2, _h3⟩ := hdisp
      subst h1
      subst h2
      exact ⟨rfl, rfl, rfl⟩

/-- C6 amended: the timeout argument of the callZome closure of a callable
cell is accepted and forwarded, but the TryCp implementation of
appWs().callZome declares no timeout parameter, so the argument has no
effect at all: the result is identical for any two timeout values, no
Timeout error is ever raised, and a dispatched call adds its id to the
pending-request map where it stays (nothing settled) until a response
frame arrives — the map never shrinks on account of time. -/
theorem callzome_timeout_ignored (cc : CallableCell) (creds : CredsStore)
    (port : Option Nat) (r : CellZomeCallRequest) (t₁ t₂ : Option Nat)
    (rid rid' : Nat) (c c' : Client) (cmds : List Command)
    (hdisp : cc.callZome creds port r t₁ rid c = (Except.ok (), rid', c', cmds)) :
    cc.callZome creds port r t₁ rid c = cc.callZome creds port r t₂ rid c ∧
    rid' = rid + 1 ∧
    c'.requestPromises = c.requestPromises ++ [rid] ∧
    c'.settled = c.settled :=
  ⟨rfl, callzome_dispatch_shape cc creds port r t₁ rid rid' c c' cmds hdisp⟩

/-- Witness for the amended timeout claim at a concrete dispatched call. -/
theorem callzome_timeout_ignored_witness :
    CallableCell.callZome ⟨(1, 2), 0, 7⟩ [((1, 2), 5)] (some 30000)
        ⟨3, 4, none, none⟩ (some 1) 0 Client.init =
      CallableCell.callZome ⟨(1, 2), 0, 7⟩ [((1, 2), 5)] (some 30000)
        ⟨3, 4, none, none⟩ none 0 Client.init ∧
    (1 : Nat) = 0 + 1 ∧
    ([0] : List Nat) = Client.init.requestPromises ++ [0] ∧
    ([] : List (Nat × Outcome)) = Client.init.settled := by
  exact callzome_timeout_ignored ⟨(1, 2), 0, 7⟩ [((1, 2), 5)] (some 30000)
    ⟨3, 4, none, none⟩ (some 1) none 0 1 Client.init
    ⟨[0], [], [], [], false⟩ [Command.callZome 30000 ⟨(1, 2), 7, none, none, 3, 4⟩ 0]
    (by rfl)

/-- C6 counterexample: a zome call issued through a callable cell with a
1-millisecond timeout against a server that never responds does not fail
with a Timeout error, and the pending slot is not removed — the call
dispatches (Except.ok), the pending map afterwards holds the new id 0, and
with no incoming frame nothing is ever settled: no Timeout error exists
and the map does not shrink by one. -/
theorem callzome_timeout_never_fires_cex :
    CallableCell.callZome ⟨(1, 2), 0, 7⟩ [((1, 2), 5)] (some 30000)
        ⟨3, 4, none, none⟩ (some 1) 0 Client.init =
      (Except.ok (), 1, ⟨[0], [], [], [], false⟩,
        [Command.callZome 30000 ⟨(1, 2), 7, none, none, 3, 4⟩ 0]) ∧
    (Client.processAll ⟨[0], [], [], [], false⟩ []).settled = [] ∧
    (Client.processAll ⟨[0], [], [], [], false⟩ []).requestPromises = [0] :=
  ⟨rfl, rfl, rfl⟩

/-- A call through the module uses the current shared counter value as the
request id and increments the counter, whichever client it is made on. -/
theorem module_call_requestId (m : Module) (ci : Nat) :
    (m.call ci).2 = m.requestId ∧ (m.call ci).1.requestId = m.requestId + 1 := by
  cases h : m.clients[ci]? <;> simp [Module.call, h]

/-- C4 amended: the request-id counter is module-level state shared by all
client connections: it starts at 0 when the module loads, each call on any
connection uses the current value and increments it by one, so across any
sequence of connection creations and calls the assigned ids are exactly
firstId, firstId+1, ... in call order — pairwise distinct, hence never
reused within the lifetime of any one connection, but the first call on a
newly created connection carries the current shared value, which is 0 only
when no call was made before on any connection. -/
theorem request_id_global_monotonic (m : Module) (ops : List ModOp) :
    (Module.run m ops).2 =
      (List.range (countCalls ops)).map (fun k => m.requestId + k) ∧
    (Module.run m ops).1.requestId = m.requestId + countCalls ops ∧
    (Module.run m ops).2.Nodup := by
  have main : ∀ ops : List ModOp, ∀ m : Module,
      (Module.run m ops).2 =
        (List.range (countCalls ops)).map (fun k => m.requestId + k) ∧
      (Module.run m ops).1.requestId = m.requestId + countCalls ops := by
    intro ops
    induction ops with
    | nil => intro m; simp [Module.run, countCalls]
    | cons op ops ih =>
      intro m
      cases op with
      | newClient =>
        have h := ih (m.newClient).1
        have hrid : (m.newClient).1.requestId = m.requestId := rfl
        rw [hrid] at h
        exact ⟨by simp [Module.run, countCalls, h.1], by simp [Module.run, countCalls, h.2]⟩
      | call ci =>
        have hcall := module_call_requestId m ci
        have h := ih (m.call ci).1
        rw [hcall.2] at h
        have hrun : Module.run m (ModOp.call ci :: ops) =
            ((Module.run (m.call ci).1 ops).1,
              (m.call ci).2 :: (Module.run (m.call ci).1 ops).2) := rfl
        rw [hrun]
        constructor
        · simp only [countCalls, h.1, hcall.1]
          have hn : 1 + countCalls ops = countCalls ops + 1 := Nat.add_comm _ _
          rw [hn, List.range_succ_eq_map, List.map_cons, List.map_map]
          have hfun : ((fun k => m.requestId + k) ∘ Nat.succ) =
              (fun k => m.requestId + 1 + k) := by
            funext k
            simp [Nat.succ_eq_add_one]
            omega
          simp [hfun]
        · simp only [countCalls, h.2]
          omega
  have h := main ops m
  refine ⟨h.1, h.2, ?_⟩
  rw [h.1]
  exact (List.nodup_range _).map (fun a b hab => by omega)

/-- n calls on a fresh connection leave the ids 0 to n-1 pending, in
registration order, with nothing settled. -/
theorem callN_spec (n : Nat) :
    callN n = (n, ⟨List.range n, [], [], [], false⟩) := by
  induction n with
  | zero => rfl
  | succ n ih => simp [callN, ih, Client.call, List.range_succ]

/-- filterMap of a function that is some everywhere on the list is map. -/
theorem filterMap_eq_map_of_some {α β : Type} (f : α → Option β) (g : α → β)
    (l : List α) (H : ∀ x ∈ l, f x = some (g x)) :
    l.filterMap f = l.map g := by
  induction l with
  | nil => rfl
  | cons a l ih =>
    rw [List.filterMap_cons, List.map_cons, H a (by simp),
      ih (fun x hx => H x (by simp [hx]))]

/-- Processing any permutation of one well-formed response frame per
pending id settles everything: the pending map is emptied and the settled
log extends by exactly the settlement of each frame, in arrival order. -/
theorem processAll_perm_settles (g : Nat → ResponseBody) :
    ∀ (fs : List Frame) (c : Client),
    c.requestPromises.Nodup →
    fs.Perm (c.requestPromises.map (fun i => Frame.response i (g i))) →
    (∀ i ∈ c.requestPromises, (g i).wellFormed = true) →
    (c.processAll fs).requestPromises = [] ∧
    (c.processAll fs).settled = c.settled ++ fs.filterMap frameSettlement := by
  intro fs
  induction fs with
  | nil =>
    intro c _hnd hperm _hwf
    have hmap : c.requestPromises.map (fun i => Frame.response i (g i)) = [] :=
      hperm.symm.eq_nil
    have hreq : c.requestPromises = [] := List.map_eq_nil_iff.mp hmap
    exact ⟨hreq, by simp [Client.processAll]⟩
  | cons f rest ih =>
    intro c hnd hperm hwf
    have hf : f ∈ c.requestPromises.map (fun i => Frame.response i (g i)) :=
      hperm.mem_iff.mp (List.mem_cons_self f rest)
    obtain ⟨i, hi, hfi⟩ := List.mem_map.mp hf
    subst hfi
    have hwfi := hwf i hi
    obtain ⟨oc, hoc⟩ : ∃ oc, settleBody (g i) = some oc := by
      cases hb : g i with
      | ok p => exact ⟨_, rfl⟩
      | err e => exact ⟨_, rfl⟩
      | unknownShape => rw [hb] at hwfi; simp [ResponseBody.wellFormed] at hwfi
    have hstep : c.handleMessage (Frame.response i (g i)) =
        { c with requestPromises := c.requestPromises.erase i,
                 settled := c.settled ++ [(i, oc)] } := by
      simp [Client.handleMessage, hi, hoc]
    have hinj : Function.Injective (fun i => Frame.response i (g i)) := by
      intro a b hab
      exact (Frame.response.inj hab).1
    have hperm' : rest.Perm
        ((c.requestPromises.erase i).map (fun i => Frame.response i (g i))) := by
      have h1 := (hperm.trans (List.perm_cons_erase hf)).cons_inv
      rwa [← List.map_erase hinj] at h1
    have hwf' : ∀ j ∈ c.requestPromises.erase i, (g j).wellFormed = true :=
      fun j hj => hwf j (List.mem_of_mem_erase hj)
    obtain ⟨ih1, ih2⟩ :=
      ih { c with requestPromises := c.requestPromises.erase i,
                  settled := c.settled ++ [(i, oc)] }
        (hnd.erase i) hperm' hwf'
    have hfold : c.processAll (Frame.response i (g i) :: rest) =
        Client.processAll
          { c with requestPromises := c.requestPromises.erase i,
                   settled := c.settled ++ [(i, oc)] } rest := by
      simp [Client.processAll, hstep]
    refine ⟨by rw [hfold]; exact ih1, ?_⟩
    rw [hfold, ih2]
    simp [frameSettlement, hoc]

/-- The range elements equal to a member form the singleton of it. -/
theorem filter_eq_range (N i : Nat) (hi : i < N) :
    (List.range N).filter (fun j => decide (j = i)) = [i] := by
  induction N with
  | zero => omega
  | succ N ih =>
    rw [List.range_succ, List.filter_append]
    by_cases h : i = N
    · subst h
      have hnil : (List.range i).filter (fun j => decide (j = i)) = [] := by
        apply List.filter_eq_nil_iff.mpr
        intro j hj
        have := List.mem_range.mp hj
        simp
        omega
      simp [hnil]
    · have hi' : i < N := by omega
      rw [ih hi']
      have hne : ¬(N = i) := fun hc => h hc.symm
      simp [hne]

/-- C1: after N calls on one connection, processing the response frames in
any arrival order — one well-formed response per request id — empties the
pending-request map, and every invocation settles exactly once (exactly
one settlement event is logged for its id, the same event that erased its
map entry), with the outcome determined by the response body bearing its
own request id. -/
theorem call_correlation_order_independent (N : Nat) (g : Nat → ResponseBody)
    (fs : List Frame)
    (hwf : ∀ i, i < N → (g i).wellFormed = true)
    (hperm : fs.Perm ((List.range N).map (fun i => Frame.response i (g i)))) :
    ((callN N).2.processAll fs).requestPromises = [] ∧
    ∀ i, i < N →
      ((((callN N).2.processAll fs).settled.filter
        (fun e => decide (e.1 = i))).length = 1 ∧
       ∀ oc, (i, oc) ∈ ((callN N).2.processAll fs).settled →
         some oc = settleBody (g i)) := by
  have hc : (callN N).2 = ⟨List.range N, [], [], [], false⟩ := by
    rw [callN_spec]
  rw [hc]
  obtain ⟨h1, h2⟩ := processAll_perm_settles g fs ⟨List.range N, [], [], [], false⟩
    (List.nodup_range N) hperm (fun i hi => hwf i (List.mem_range.mp hi))
  refine ⟨h1, ?_⟩
  intro i hiN
  have hsome : ∀ j ∈ List.range N,
      frameSettlement (Frame.response j (g j)) =
        some (j, (settleBody (g j)).getD Outcome.resolvedTrycp) := by
    intro j hj
    have hwfj := hwf j (List.mem_range.mp hj)
    cases hb : g j with
    | ok p => simp [frameSettlement, hb, settleBody]
    | err e => simp [frameSettlement, hb, settleBody]
    | unknownShape => rw [hb] at hwfj; simp [ResponseBody.wellFormed] at hwfj
  have hpermS : (fs.filterMap frameSettlement).Perm
      ((List.range N).map
        (fun j => (j, (settleBody (g j)).getD Outcome.resolvedTrycp))) := by
    have hp := hperm.filterMap frameSettlement
    rw [List.filterMap_map] at hp
    have heq : (List.range N).filterMap
        (frameSettlement ∘ fun i => Frame.response i (g i)) =
        (List.range N).map
          (fun j => (j, (settleBody (g j)).getD Outcome.resolvedTrycp)) := by
      apply filterMap_eq_map_of_some
      intro j hj
      exact hsome j hj
    rwa [heq] at hp
  constructor
  · rw [h2]
    simp only [List.nil_append]
    have hlen := (hpermS.filter (fun e => decide (e.1 = i))).length_eq
    rw [hlen, List.filter_map]
    have hcomp : ((fun e : Nat × Outcome => decide (e.1 = i)) ∘
        (fun j => (j, (settleBody (g j)).getD Outcome.resolvedTrycp))) =
        (fun j => decide (j = i)) := by
      funext j
      rfl
    rw [hcomp, filter_eq_range N i hiN]
    rfl
  · intro oc hmem
    rw [h2] at hmem
    simp only [List.nil_append] at hmem
    have hmem2 := hpermS.mem_iff.mp hmem
    obtain ⟨j, hj, hje⟩ := List.mem_map.mp hmem2
    have hji : j = i := congrArg Prod.fst hje
    subst hji
    have hocj : oc = (settleBody (g j)).getD Outcome.resolvedTrycp :=
      (congrArg Prod.snd hje).symm
    have hwfj := hwf j hiN
    obtain ⟨oc', hoc'⟩ : ∃ oc', settleBody (g j) = some oc' := by
      cases hb : g j with
      | ok p => exact ⟨_, rfl⟩
      | err e => exact ⟨_, rfl⟩
      | unknownShape => rw [hb] at hwfj; simp [ResponseBody.wellFormed] at hwfj
    rw [hoc', hocj, hoc']
    rfl

/-- Witness for the correlation claim: two calls, responses arriving in
reverse order; each id settles once with the outcome of its own frame. -/
theorem call_correlation_order_independent_witness :
    ((callN 2).2.processAll
      [Frame.response 1 (ResponseBody.err 11),
       Frame.response 0 (ResponseBody.err 10)]).requestPromises = [] ∧
    (((callN 2).2.processAll
      [Frame.response 1 (ResponseBody.err 11),
       Frame.response 0 (ResponseBody.err 10)]).settled.filter
        (fun e => decide (e.1 = 0))).length = 1 ∧
    (((callN 2).2.processAll
      [Frame.response 1 (ResponseBody.err 11),
       Frame.response 0 (ResponseBody.err 10)]).settled.filter
        (fun e => decide (e.1 = 1))).length = 1 := by
  have h := call_correlation_order_independent 2
    (fun i => ResponseBody.err (10 + i))
    [Frame.response 1 (ResponseBody.err 11), Frame.response 0 (ResponseBody.err 10)]
    (fun i _hi => rfl) (by decide)
  exact ⟨h.1, (h.2 0 (by decide)).1, (h.2 1 (by decide)).1⟩

/-- C4 counterexample: with the shared module counter, create a client,
make one call on it (id 0), then create a second client; the first call on
the freshly created second connection carries id 1, not 0 — each pending
map shows which id its connection got. -/
theorem request_id_not_per_connection_cex :
    (Module.run Module.init
        [ModOp.newClient, ModOp.call 0, ModOp.newClient, ModOp.call 1]).2
      = [0, 1] ∧
    (Module.run Module.init
        [ModOp.newClient, ModOp.call 0, ModOp.newClient, ModOp.call 1]).1.clients.map
        (fun c => c.requestPromises) = [[0], [1]] ∧
    (1 : Nat) ≠ 0 := by decide

/-- The cell loop over usable cell infos succeeds and appends one callable
cell per declared cell, in iteration order, each capturing the conductor,
the cell id of its entry and the agent pub key. -/
theorem collectCells_ok (conductor agentPubKey : Nat) :
    ∀ (l : List (Nat × CellInfo))
      (acc : List CallableCell × List (Nat × CallableCell)),
    (∀ rc ∈ l, rc.2.usable = true) →
    ∃ named, collectCells conductor agentPubKey l acc =
      .ok (acc.1 ++ l.map
        (fun rc => getCallableCell conductor rc.2.cellIdOf agentPubKey), named) := by
  intro l
  induction l with
  | nil =>
    intro acc _
    exact ⟨acc.2, by simp [collectCells]⟩
  | cons rc rest ih =>
    intro acc hus
    obtain ⟨role, ci⟩ := rc
    have hci := hus (role, ci) (by simp)
    cases ci with
    | provisioned cid =>
      obtain ⟨named, hn⟩ := ih
        (acc.1 ++ [getCallableCell conductor cid agentPubKey],
         mapSet acc.2 role (getCallableCell conductor cid agentPubKey))
        (fun rc hrc => hus rc (by simp [hrc]))
      exact ⟨named, by simp [collectCells, addCell, hn, CellInfo.cellIdOf]⟩
    | cloned cid cloneId =>
      cases cloneId with
      | none => simp [CellInfo.usable] at hci
      | some cl =>
        obtain ⟨named, hn⟩ := ih
          (acc.1 ++ [getCallableCell conductor cid agentPubKey],
           mapSet acc.2 cl (getCallableCell conductor cid agentPubKey))
          (fun rc hrc => hus rc (by simp [hrc]))
        exact ⟨named, by simp [collectCells, addCell, hn, CellInfo.cellIdOf]⟩
    | stem => simp [CellInfo.usable] at hci

/-- C7: after a successful remote install command installApp issues the
enable command for the installed app (this is unconditional: the trace is
exactly optional key generation, then install, then enable), and the
returned AgentApp holds one callable cell per declared Provisioned or
Cloned cell, in declaration order, each closing over the conductor, the
cell id of that cell, and the installing agent key, which is the default
provenance of the zome calls the cell builds. -/
theorem install_app_enables_and_builds_cells (conductor : Nat)
    (optKey : Option Nat) (genKey reqAppId : Nat) (info : AppInfo)
    (er : EnableAppResponse)
    (hok : er.errors = [])
    (hus : ∀ rc ∈ roleCells info, rc.2.usable = true) :
    (TryCpConductor.installApp conductor optKey genKey reqAppId info er).1 =
      (match optKey with
        | some _ => []
        | none => [Command.generateAgentPubKey]) ++
      [Command.installApp reqAppId (optKey.getD genKey),
       Command.enableApp info.installedAppId] ∧
    ∃ app, (TryCpConductor.installApp conductor optKey genKey reqAppId info er).2
        = .ok app ∧
      app.appId = info.installedAppId ∧
      app.agentPubKey = optKey.getD genKey ∧
      app.cells = (roleCells info).map
        (fun rc => getCallableCell conductor rc.2.cellIdOf (optKey.getD genKey)) ∧
      (∀ cc ∈ app.cells, cc.conductor = conductor ∧
        cc.agentPubKey = optKey.getD genKey ∧
        ∀ q : CellZomeCallRequest, q.provenance = none →
          (buildCellZomeCall cc q).provenance = optKey.getD genKey ∧
          (buildCellZomeCall cc q).cellId = cc.cellId) := by
  obtain ⟨named, hn⟩ :=
    collectCells_ok conductor (optKey.getD genKey) (roleCells info) ([], []) hus
  have hen : enableAndGetAgentApp conductor (optKey.getD genKey) info er =
      ([Command.enableApp info.installedAppId],
       .ok ⟨info.installedAppId, optKey.getD genKey,
            (roleCells info).map
              (fun rc => getCallableCell conductor rc.2.cellIdOf (optKey.getD genKey)),
            named⟩) := by
    simp [enableAndGetAgentApp, hok, hn]
  constructor
  · simp [TryCpConductor.installApp, hen]
  · refine ⟨⟨info.installedAppId, optKey.getD genKey,
      (roleCells info).map
        (fun rc => getCallableCell conductor rc.2.cellIdOf (optKey.getD genKey)),
      named⟩, ?_, rfl, rfl, rfl, ?_⟩
    · simp [TryCpConductor.installApp, hen]
    · intro cc hcc
      obtain ⟨rc, _hrc, hccc⟩ := List.mem_map.mp hcc
      subst hccc
      refine ⟨rfl, rfl, ?_⟩
      intro q hq
      exact ⟨by simp [buildCellZomeCall, getCallableCell, hq], rfl⟩

/-- Witness for the install claim: an app with one provisioned and one
cloned cell; the trace is install then enable, and both cells become
callable cells closing over conductor 3 and agent key 4. -/
theorem install_app_enables_and_builds_cells_witness :
    (TryCpConductor.installApp 3 (some 4) 0 11
        ⟨11, [(1, [CellInfo.provisioned (21, 4)]),
              (2, [CellInfo.cloned (22, 4) (some 9)])]⟩ ⟨[]⟩).1 =
      [Command.installApp 11 4, Command.enableApp 11] ∧
    (TryCpConductor.installApp 3 (some 4) 0 11
        ⟨11, [(1, [CellInfo.provisioned (21, 4)]),
              (2, [CellInfo.cloned (22, 4) (some 9)])]⟩ ⟨[]⟩).2 =
      Except.ok ⟨11, 4, [⟨(21, 4), 3, 4⟩, ⟨(22, 4), 3, 4⟩],
                 [(1, ⟨(21, 4), 3, 4⟩), (9, ⟨(22, 4), 3, 4⟩)]⟩ := by
  have h := install_app_enables_and_builds_cells 3 (some 4) 0 11
    ⟨11, [(1, [CellInfo.provisioned (21, 4)]),
          (2, [CellInfo.cloned (22, 4) (some 9)])]⟩ ⟨[]⟩ rfl (by decide)
  exact ⟨h.1, by rfl⟩

/-- A map of a zero function sums to zero. -/
theorem sum_map_zero (l : List Nat) (f : Nat → Nat) (h : ∀ j ∈ l, f j = 0) :
    (l.map f).sum = 0 := by
  induction l with
  | nil => rfl
  | cons a l ih =>
    simp [h a (by simp), ih (fun j hj => h j (by simp [hj]))]

/-- The sum over a range of an indicator of one member index is one. -/
theorem sum_map_indicator_range (n i : Nat) (f : Nat → Nat)
    (hi : i < n) (hf1 : f i = 1) (hf0 : ∀ j, j ≠ i → f j = 0) :
    ((List.range n).map f).sum = 1 := by
  induction n with
  | zero => omega
  | succ n ih =>
    rw [List.range_succ, List.map_append, List.sum_append]
    by_cases h : i = n
    · subst h
      rw [sum_map_zero _ f
        (fun j hj => hf0 j (by have := List.mem_range.mp hj; omega))]
      simp [hf1]
    · have hi' : i < n := by omega
      rw [ih hi']
      have hn0 : f n = 0 := hf0 n (fun hc => h hc.symm)
      simp [hn0]

/-- Count distributes over flatMap as a sum of counts. -/
theorem count_flatMap {α β : Type} [DecidableEq β] (f : α → List β)
    (l : List α) (b : β) :
    ((l.flatMap f).count b) = (l.map (fun a => (f a).count b)).sum := by
  induction l with
  | nil => rfl
  | cons a l ih => simp [List.flatMap_cons, List.count_append, ih]

/-- A filterMap whose function is a guarded some is a map after filter. -/
theorem filterMap_guard {α : Type} (p : Nat → Prop) [DecidablePred p]
    (g : Nat → α) (l : List Nat) :
    l.filterMap (fun j => if p j then some (g j) else none) =
      (l.filter (fun j => decide (p j))).map g := by
  induction l with
  | nil => rfl
  | cons a l ih =>
    by_cases h : p a <;> simp [List.filterMap_cons, List.filter_cons, h, ih]

/-- Pushes never remove records: membership in a conductor record list is
preserved by applying admin events. -/
theorem applyEvents_mono (x : Nat) :
    ∀ (evts : List AdminEvent) (cs : List (List Nat)) (j : Nat),
    x ∈ cs.getD j [] → x ∈ (applyEvents cs evts).getD j [] := by
  intro evts
  induction evts with
  | nil => intro cs j h; exact h
  | cons e evts ih =>
    intro cs j h
    cases e with
    | fetch s => exact ih cs j h
    | push s dst recs =>
      apply ih
      by_cases hdj : dst = j
      · subst hdj
        by_cases hlt : dst < cs.length
        · have hset : (cs.set dst (cs.getD dst [] ++ recs)).getD dst [] =
              cs.getD dst [] ++ recs := by
            simp [List.getD, List.get?_eq_getElem?, List.getElem?_set_self hlt]
          rw [hset]
          exact List.mem_append_left _ h
        · rw [List.set_eq_of_length_le (by omega)]
          exact h
      · have hset : (cs.set dst (cs.getD dst [] ++ recs)).getD j [] =
            cs.getD j [] := by
          simp [List.getD, List.get?_eq_getElem?, List.getElem?_set_ne hdj]
        rw [hset]
        exact h

/-- A push event present in an event list deposits its records in the
destination conductor. -/
theorem applyEvents_push_mem (x : Nat) :
    ∀ (evts : List AdminEvent) (cs : List (List Nat)) (s j : Nat)
      (recs : List Nat),
    AdminEvent.push s j recs ∈ evts → j < cs.length → x ∈ recs →
    x ∈ (applyEvents cs evts).getD j [] := by
  intro evts
  induction evts with
  | nil =>
    intro cs s j recs h
    simp at h
  | cons e evts ih =>
    intro cs s j recs hmem hj hx
    rcases List.mem_cons.mp hmem with heq | hmem'
    · subst heq
      have hset : (cs.set j (cs.getD j [] ++ recs)).getD j [] =
          cs.getD j [] ++ recs := by
        simp [List.getD, List.get?_eq_getElem?, List.getElem?_set_self hj]
      have hx' : x ∈ (cs.set j (cs.getD j [] ++ recs)).getD j [] := by
        rw [hset]
        exact List.mem_append_right _ hx
      exact applyEvents_mono x evts _ j hx'
    · cases e with
      | fetch s' => exact ih cs s j recs hmem' hj hx
      | push s' dst recs' =>
        exact ih _ s j recs hmem' (by simpa using hj) hx

/-- C9: when addAllAgentsToAllConductors resolves, for every ordered pair
of distinct conductor indices (i, j) the records of conductor i were
fetched exactly once, pushed into conductor j exactly once (so every
record of conductor i is found in conductor j afterwards), and no push
from a conductor to itself occurs. -/
theorem add_all_agents_all_pairs (cs : List (List Nat)) (i j : Nat)
    (hi : i < cs.length) (hj : j < cs.length) (hij : i ≠ j) :
    (addAllAgentsToAllConductors cs).count (AdminEvent.fetch i) = 1 ∧
    (addAllAgentsToAllConductors cs).count
      (AdminEvent.push i j (cs.getD i [])) = 1 ∧
    (∀ recs, (addAllAgentsToAllConductors cs).count
      (AdminEvent.push i i recs) = 0) ∧
    (∀ x ∈ cs.getD i [],
      x ∈ (applyEvents cs (addAllAgentsToAllConductors cs)).getD j []) := by
  have hpushes : ∀ s : Nat,
      (List.range cs.length).filterMap (fun k =>
        if s ≠ k then some (AdminEvent.push s k (cs.getD s [])) else none) =
      ((List.range cs.length).filter (fun k => decide (s ≠ k))).map
        (fun k => AdminEvent.push s k (cs.getD s [])) := by
    intro s
    exact filterMap_guard (fun k => s ≠ k) _ _
  refine ⟨?_, ?_, ?_, ?_⟩
  · rw [addAllAgentsToAllConductors,
      count_flatMap (fun s => AdminEvent.fetch s ::
        (List.range cs.length).filterMap (fun k =>
          if s ≠ k then some (AdminEvent.push s k (cs.getD s [])) else none))]
    apply sum_map_indicator_range _ _ _ hi
    · rw [List.count_cons_self, hpushes i]
      have hz : ((((List.range cs.length).filter
          (fun k => decide (i ≠ k))).map
            (fun k => AdminEvent.push i k (cs.getD i []))).count
          (AdminEvent.fetch i)) = 0 := by
        apply List.count_eq_zero.mpr
        intro hc
        obtain ⟨k, _, hk⟩ := List.mem_map.mp hc
        exact AdminEvent.noConfusion hk
      rw [hz]
    · intro s hs
      rw [List.count_cons_of_ne (fun hc => hs (AdminEvent.fetch.inj hc).symm),
        hpushes s]
      apply List.count_eq_zero.mpr
      intro hc
      obtain ⟨k, _, hk⟩ := List.mem_map.mp hc
      exact AdminEvent.noConfusion hk
  · rw [addAllAgentsToAllConductors,
      count_flatMap (fun s => AdminEvent.fetch s ::
        (List.range cs.length).filterMap (fun k =>
          if s ≠ k then some (AdminEvent.push s k (cs.getD s [])) else none))]
    apply sum_map_indicator_range _ _ _ hi
    · rw [List.count_cons_of_ne (fun hc => AdminEvent.noConfusion hc), hpushes i]
      have hinj : Function.Injective
          (fun k => AdminEvent.push i k (cs.getD i [])) := by
        intro a b hab
        exact (AdminEvent.push.inj hab).2.1
      rw [show AdminEvent.push i j (cs.getD i []) =
        (fun k => AdminEvent.push i k (cs.getD i [])) j from rfl]
      rw [List.count_map_of_injective _ _ hinj]
      rw [List.count_filter (by simpa using hij)]
      exact List.count_eq_one_of_mem (List.nodup_range _) (List.mem_range.mpr hj)
    · intro s hs
      rw [List.count_cons_of_ne (fun hc => AdminEvent.noConfusion hc), hpushes s]
      apply List.count_eq_zero.mpr
      intro hc
      obtain ⟨k, _, hk⟩ := List.mem_map.mp hc
      exact hs (AdminEvent.push.inj hk).1
  · intro recs
    rw [addAllAgentsToAllConductors,
      count_flatMap (fun s => AdminEvent.fetch s ::
        (List.range cs.length).filterMap (fun k =>
          if s ≠ k then some (AdminEvent.push s k (cs.getD s [])) else none))]
    apply sum_map_zero
    intro s _
    rw [List.count_cons_of_ne (fun hc => AdminEvent.noConfusion hc), hpushes s]
    apply List.count_eq_zero.mpr
    intro hc
    obtain ⟨k, hkmem, hk⟩ := List.mem_map.mp hc
    obtain ⟨hsrc, hdst, _⟩ := AdminEvent.push.inj hk
    have hks : s ≠ k := by
      have hmem := List.of_mem_filter hkmem
      simpa using hmem
    exact hks (hsrc.trans hdst.symm)
  · intro x hx
    apply applyEvents_push_mem x (addAllAgentsToAllConductors cs) cs i j
      (cs.getD i []) ?_ hj hx
    rw [addAllAgentsToAllConductors]
    apply List.mem_flatMap.mpr
    refine ⟨i, List.mem_range.mpr hi, ?_⟩
    apply List.mem_cons.mpr
    right
    apply List.mem_filterMap.mpr
    exact ⟨j, List.mem_range.mpr hj, by simp [hij]⟩

/-- Witness for the all-pairs broadcast claim on two conductors. -/
theorem add_all_agents_all_pairs_witness :
    (addAllAgentsToAllConductors [[7], [8]]).count (AdminEvent.fetch 0) = 1 ∧
    (addAllAgentsToAllConductors [[7], [8]]).count
      (AdminEvent.push 0 1 [7]) = 1 ∧
    (addAllAgentsToAllConductors [[7], [8]]).count
      (AdminEvent.push 0 0 [7]) = 0 ∧
    (7 ∈ (applyEvents [[7], [8]] (addAllAgentsToAllConductors [[7], [8]])).getD 1 []) := by
  have h := add_all_agents_all_pairs [[7], [8]] 0 1 (by decide) (by decide)
    (by decide)
  exact ⟨h.1, h.2.1, h.2.2.1 [7], h.2.2.2 7 (by decide)⟩
